import Mathlib

/-!
Verification of the FastLS hierarchical key-value store (the `FastLS` class:
path normalization/validation, nested value traversal, folder deletion
strategies, byte-quota enforcement, shortcut resolution).

The JavaScript source is shallowly embedded: JSON-like runtime values become
the inductive type `Value`; the flat database map becomes an association
list in insertion order (mirroring JavaScript object key order for the
string keys used here); mutation-based loops become structural recursion;
statements that can throw return `Option`/`Except` — `TypeError` on
property access of `null`/`undefined`, `TypeError` on property assignment
on a primitive (all `class` bodies are strict mode), and path validation
errors.
The `async` operation bodies are embedded (the spec requires the same core
algorithm in both suspending and non-suspending modes, and the `operation`
closures hold that algorithm).

Two JavaScript corners are outside the model and are never exercised by any
theorem below: expando (non-index) properties on arrays, which JSON
serialization discards anyway, and shortcut sentinel fields holding truthy
non-string values, which `setShortcut` never creates.
-/

namespace FastLS

/-- JSON-like JavaScript runtime value: primitives, arrays, objects.
Objects are association lists in insertion order. `vUndef` is JavaScript
`undefined`, distinct from `null`. -/
inductive Value where
  | vNull
  | vUndef
  | vBool (b : Bool)
  | vNum (n : Int)
  | vStr (s : String)
  | vArr (elems : List Value)
  | vObj (fields : List (String × Value))
deriving Repr

open Value

/-- JavaScript truthiness: `!v` (NaN is not modelled; `vNum` is an integer). -/
def falsy : Value → Bool
  | vNull => true
  | vUndef => true
  | vBool b => !b
  | vNum n => n == 0
  | vStr s => s == ""
  | vArr _ => false
  | vObj _ => false

/-- `typeof v === 'object' && v !== null` restricted to containers:
arrays and plain objects. -/
def isContainer : Value → Bool
  | vArr _ => true
  | vObj _ => true
  | _ => false

/-- Whether a value is a plain object. -/
def isObjV : Value → Bool
  | vObj _ => true
  | _ => false

/-- `Array.isArray(v)`. -/
def isArrV : Value → Bool
  | vArr _ => true
  | _ => false

/-- First-match association lookup, as JavaScript property read on an object. -/
def lookupField : List (String × Value) → String → Option Value
  | [], _ => none
  | (k2, v) :: rest, k => if k2 = k then some v else lookupField rest k

/-- JavaScript property write on an object: replace the value of an existing
key in place (key order preserved), or append a new key. -/
def setField : List (String × Value) → String → Value → List (String × Value)
  | [], k, v => [(k, v)]
  | (k2, w) :: rest, k, v =>
      if k2 = k then (k2, v) :: rest else (k2, w) :: setField rest k v

/-- A canonical JavaScript array index string: digits with no leading zero
(except `"0"` itself). `arr["2"]` reads the element; other strings are
expando properties, outside the model. -/
def canonIndex (s : String) : Option Nat :=
  let cs := s.toList
  if cs ≠ [] ∧ cs.all (·.isDigit) ∧ (cs = ['0'] ∨ cs.head? ≠ some '0') then
    some (cs.foldl (fun a c => a * 10 + (c.toNat - '0'.toNat)) 0)
  else none

/-- JavaScript property read `v[k]` for non-`null`/`undefined` `v`, returning
`undefined` on a miss (callers guard the throwing `null`/`undefined` cases). -/
def jsGetProp : Value → String → Value
  | vObj fs, k => (lookupField fs k).getD vUndef
  | vArr xs, k =>
      match canonIndex k with
      | some i => xs.getD i vUndef
      | none => vUndef
  | _, _ => vUndef

/-- `Object.keys(v)`: field names of an object, index strings of an array,
`[]` for primitives. -/
def keysOf : Value → List String
  | vObj fs => fs.map Prod.fst
  | vArr xs => (List.range xs.length).map toString
  | _ => []

/-- `Object.entries(v)` as used by `_calculateFolderSize` over the flat map. -/
def jsEntries : Value → List (String × Value)
  | vObj fs => fs
  | vArr xs => xs.enum.map (fun p => (toString p.1, p.2))
  | _ => []

/-- Extend a list to length at least `n` with `fill`
(the `while (a.length <= idx) a.push(fill)` loops). -/
def padTo (xs : List Value) (n : Nat) (fill : Value) : List Value :=
  xs ++ List.replicate (n - xs.length) fill

/-! ### Serialization (`_serializeData` / `_calculateSize`)

`JSON.stringify` without the gzip stage (gzip is off by default and is an
adapter concern): `undefined` members of objects are dropped, `undefined`
array elements serialize as `null`, and a top-level `undefined` passed to
`new Blob([...])` coerces to the string `"undefined"`. Function values are
not modelled (no claim stores one). String escaping covers the quote,
backslash and ASCII control characters, which is exact for every string a
theorem below serializes. -/

/-- JSON string escaping for one character. -/
def escapeChar (c : Char) : String :=
  if c = '"' then "\\\""
  else if c = '\\' then "\\\\"
  else if c = '\n' then "\\n"
  else if c = '\t' then "\\t"
  else if c = '\r' then "\\r"
  else if c.toNat < 32 then "\\u0000"
  else String.singleton c

/-- JSON string escaping. -/
def escapeStr (s : String) : String :=
  s.toList.foldl (fun a c => a ++ escapeChar c) ""

mutual

/-- `JSON.stringify` of a defined value. -/
def serialize : Value → String
  | vNull => "null"
  | vUndef => "null"
  | vBool b => if b then "true" else "false"
  | vNum n => toString n
  | vStr s => "\"" ++ escapeStr s ++ "\""
  | vArr xs => "[" ++ serializeElems xs ++ "]"
  | vObj fs => "\x7b" ++ serializeFields fs ++ "\x7d"

/-- Array elements, comma separated (`undefined` elements print as `null`). -/
def serializeElems : List Value → String
  | [] => ""
  | [v] => serialize v
  | v :: vs => serialize v ++ "," ++ serializeElems vs

/-- Object members, comma separated, `undefined`-valued members dropped. -/
def serializeFields : List (String × Value) → String
  | [] => ""
  | (k, v) :: fs =>
      match v with
      | vUndef => serializeFields fs
      | _ =>
        let entry := "\"" ++ escapeStr k ++ "\":" ++ serialize v
        match serializeFields fs with
        | "" => entry
        | rest => entry ++ "," ++ rest

end

/-- `_serializeData` at the top level, as fed to `new Blob([...])`:
`JSON.stringify(undefined)` is `undefined`, which `Blob` coerces to the
string `"undefined"`. -/
def serializeTop : Value → String
  | vUndef => "undefined"
  | v => serialize v

/-- `_calculateSize`: byte length (UTF-8, as `Blob` measures) of the
serialized value. -/
def calcSize (v : Value) : Nat := (serializeTop v).utf8ByteSize

/-! ### Path manipulation (`_normalizePath`, `_validatePath`, `_parseFullPath`) -/

/-- `s.startsWith(pre)`. -/
def strStartsWith (s pre : String) : Bool := pre.toList.isPrefixOf s.toList

/-- `s.includes(c)` for a single character. -/
def strContains (s : String) (c : Char) : Bool := s.toList.any (fun c2 => c2 = c)

/-- Split on the separator characters `\` and `/`
(JavaScript `path.split(/[\\/]/)`; empty tokens are kept). -/
def splitSepsAux : List Char → List Char → List String
  | acc, [] => [String.mk acc.reverse]
  | acc, c :: cs =>
      if c = '\\' ∨ c = '/' then String.mk acc.reverse :: splitSepsAux [] cs
      else splitSepsAux (c :: acc) cs

/-- Split a raw path string on `\` and `/`. -/
def splitSeps (s : String) : List String := splitSepsAux [] s.toList

/-- `path.replace(/^[^:]+:/, '')`: drop a nonempty colon-free prefix together
with the first colon, if present. -/
def stripFlagPrefix (s : String) : String :=
  let cs := s.toList
  let pre := cs.takeWhile (· ≠ ':')
  if pre ≠ [] ∧ pre.length < cs.length then String.mk (cs.drop (pre.length + 1))
  else s

/-- The token loop of `_normalizePath`: `..` pops the accumulated segment list
(a no-op when it is already empty), `.` and empty tokens are dropped,
everything else is pushed. -/
def normAux (acc : List String) : List String → List String
  | [] => acc
  | p :: ps =>
      if p = ".." then normAux acc.dropLast ps
      else if p = "" ∨ p = "." then normAux acc ps
      else normAux (acc ++ [p]) ps

/-- Segment-list normalization. -/
def normParts (ps : List String) : List String := normAux [] ps

/-- `_normalizePath`: strip a flag prefix, tokenize on separators, process
`..`/`.`/empty tokens, join with `\`. (For the empty string this computes
`""`, agreeing with the source's early return.) -/
def normalizePath (raw : String) : String :=
  String.intercalate "\\" (normParts (splitSeps (stripFlagPrefix raw)))

/-- `_validatePath`: `some errorMessage` when the (truthy) path contains `:`
or `\`, or equals `".."`; `none` when it passes. -/
def validatePath (path : String) : Option String :=
  if path ≠ "" ∧ (strContains path ':' ∨ strContains path '\\') then
    some "Path cannot contain colon or backslash in key names"
  else if path = ".." then some "Path cannot be dot-dot"
  else none

/-- Result of `_parseFullPath`. -/
structure ParsedPath where
  dbName : Option String
  path : String
deriving DecidableEq, Repr

/-- `_parseFullPath`: an optional database prefix `name:` (nonempty,
colon-free `name`), then the normalized remainder. -/
def parseFullPath (fullPath : String) : ParsedPath :=
  let cs := fullPath.toList
  let pre := cs.takeWhile (· ≠ ':')
  if pre ≠ [] ∧ pre.length < cs.length then
    ⟨some (String.mk pre), normalizePath (String.mk (cs.drop (pre.length + 1)))⟩
  else ⟨none, normalizePath fullPath⟩

/-! ### Sub-path parsing inside `_getValueByPath` / `_setValueByPath` -/

/-- Accumulating splitter for `path.split('.')`. -/
def splitDotsAux : List Char → List Char → List String
  | acc, [] => [String.mk acc.reverse]
  | acc, c :: cs =>
      if c = '.' then String.mk acc.reverse :: splitDotsAux [] cs
      else splitDotsAux (c :: acc) cs

/-- `path.split('.')`. -/
def splitDots (p : String) : List String := splitDotsAux [] p.toList

/-- `c` matches JavaScript regex `\w`: ASCII letter, digit or underscore. -/
def isWordChar (c : Char) : Bool := c.isAlpha || c.isDigit || c = '_'

/-- Try to match `\w+\[\d+\]` starting exactly at the head of `cs`. -/
def arrayMatchAt (cs : List Char) : Option (String × Nat) :=
  let ws := cs.takeWhile isWordChar
  if ws = [] then none
  else
    match cs.drop ws.length with
    | '[' :: rest =>
        let ds := rest.takeWhile (·.isDigit)
        if ds = [] then none
        else
          match rest.drop ds.length with
          | ']' :: _ =>
              some (String.mk ws, ds.foldl (fun a c => a * 10 + (c.toNat - '0'.toNat)) 0)
          | _ => none
    | _ => none

/-- Leftmost match as in `key.match(/(\w+)\[(\d+)\]/)` with
`parseInt` of the digits. -/
def findArrayMatchAux : List Char → Option (String × Nat)
  | [] => none
  | c :: cs =>
      match arrayMatchAt (c :: cs) with
      | some r => some r
      | none => findArrayMatchAux cs

/-- `key.match(/(\w+)\[(\d+)\]/)` on a sub-path key. -/
def findArrayMatch (k : String) : Option (String × Nat) :=
  findArrayMatchAux k.toList

/-- `s.toLowerCase()`. -/
def strToLower (s : String) : String := String.mk (s.toList.map Char.toLower)

/-- Case-insensitive key scan
`Object.keys(current).find(k2 => k2.toLowerCase() === key.toLowerCase())`. -/
def caseFind (keys : List String) (k : String) : Option String :=
  keys.find? (fun k2 => strToLower k2 == strToLower k)

/-! ### `_getValueByPath` -/

/-- One iteration of the `_getValueByPath` loop, with `current` already
checked to be a container: array-index keys read `current[name][idx]`
(returning `undefined` when `current[name]` is not an array or the index is
out of range), plain keys read directly (case-sensitive mode) or through a
case-insensitive scan of the existing keys. A miss yields `undefined`;
the loop's `break`-on-`undefined` and its top-of-iteration container check
make that the final result either way. -/
def getStep (caseSen : Bool) (current : Value) (k : String) : Value :=
  match findArrayMatch k with
  | some (name, idx) =>
      match jsGetProp current name with
      | vArr xs => xs.getD idx vUndef
      | _ => vUndef
  | none =>
      if caseSen then jsGetProp current k
      else
        match caseFind (keysOf current) k with
        | some k2 => jsGetProp current k2
        | none => vUndef

/-- The `_getValueByPath` loop over the split keys: each iteration first
checks that `current` is a container (else the result is `undefined`),
then applies `getStep`. -/
def getGo (caseSen : Bool) : Value → List String → Value
  | current, [] => current
  | current, k :: ks =>
      if isContainer current then getGo caseSen (getStep caseSen current k) ks
      else vUndef

/-- `_getValueByPath(obj, path)`: a falsy `path` or falsy `obj` returns `obj`
unchanged; otherwise the loop runs over `path.split('.')`. -/
def getValueByPath (caseSen : Bool) (obj : Value) (path : String) : Value :=
  if path = "" ∨ falsy obj then obj
  else getGo caseSen obj (splitDots path)

/-! ### `_setValueByPath`

The source mutates `current` in place while walking the split keys; the
embedding passes the updated child back up instead. A `none` result models a
thrown `TypeError`: property access on `null`/`undefined`, and — because
`class` bodies are always strict mode — any assignment of a property on a
primitive (`current[key] = ...` on a number/string/boolean throws
`TypeError: Cannot create property ...` rather than no-oping). -/

/-- `current[name]` coerced to an array: the existing array, or `[]` when
absent or not an array (the source then assigns the fresh `[]`). -/
def arrAt (fs : List (String × Value)) (name : String) : List Value :=
  match lookupField fs name with
  | some (vArr xs) => xs
  | _ => []

/-- The actual key a plain segment resolves to on an object: the segment
itself in case-sensitive mode, otherwise the first case-insensitive match
among the existing keys (falling back to the segment verbatim). -/
def resolveKey (caseSen : Bool) (fs : List (String × Value)) (k : String) :
    String :=
  if caseSen then k else (caseFind (fs.map Prod.fst) k).getD k

/-- The child an intermediate plain segment descends into: the existing
child when it is a container, otherwise a fresh `{}` clobbering it. -/
def clobberChild (fs : List (String × Value)) (actualKey : String) : Value :=
  let child0 := (lookupField fs actualKey).getD vUndef
  if isContainer child0 then child0 else vObj []

/-- The final assignment of `_setValueByPath` (`keys[keys.length - 1]`):
array-index keys coerce `current[name]` to an array, pad with `undefined`
up to the index and assign the element; plain keys resolve the actual key
(case-insensitively when configured) and assign. `null`/`undefined`
`current` throws on the property read; a truthy primitive `current` throws
on the assignment itself (strict mode), on both the plain-key and the
array-key form. -/
def setKeysLast (caseSen : Bool) (v current : Value) (k : String) :
    Option Value :=
  match findArrayMatch k with
  | some (name, idx) =>
      match current with
      | vObj fs =>
          some (vObj (setField fs name
            (vArr ((padTo (arrAt fs name) (idx + 1) vUndef).set idx v))))
      | vArr xs =>
          match canonIndex name with
          | some i =>
              let inner := match xs.getD i vUndef with
                | vArr ys => ys
                | _ => []
              some (vArr ((padTo xs (i + 1) vUndef).set i
                (vArr ((padTo inner (idx + 1) vUndef).set idx v))))
          | none => none
      | vNull => none
      | vUndef => none
      | _ => none
  | none =>
      match current with
      | vNull => none
      | vUndef => none
      | vObj fs => some (vObj (setField fs (resolveKey caseSen fs k) v))
      | vArr xs =>
          match canonIndex k with
          | some i => some (vArr ((padTo xs (i + 1) vUndef).set i v))
          | none => none
      | _ => none

/-- One intermediate iteration of the `_setValueByPath` loop
(`i < keys.length - 1`), with the walk of the remaining keys abstracted as
`recur`: array-index keys ensure `current[name]` is an array, pad it with
fresh empty objects up to the index and descend into the element; plain
keys resolve the actual key, clobber a non-container child with a fresh
`{}` and descend. A `null`/`undefined` `current` throws on the property
read; a truthy primitive `current` throws on the clobbering assignment
itself (strict mode). -/
def setKeysMidWith (caseSen : Bool) (current : Value) (k : String)
    (recur : Value → Option Value) : Option Value :=
  match findArrayMatch k with
  | some (name, idx) =>
      match current with
      | vObj fs =>
          match recur ((padTo (arrAt fs name) (idx + 1) (vObj [])).getD idx
              vUndef) with
          | some child =>
              some (vObj (setField fs name
                (vArr ((padTo (arrAt fs name) (idx + 1) (vObj [])).set idx
                  child))))
          | none => none
      | vArr xs =>
          match canonIndex name with
          | some i =>
              let inner := match xs.getD i vUndef with
                | vArr ys => ys
                | _ => []
              let inner1 := padTo inner (idx + 1) (vObj [])
              match recur (inner1.getD idx vUndef) with
              | some child =>
                  some (vArr ((padTo xs (i + 1) vUndef).set i
                    (vArr (inner1.set idx child))))
              | none => none
          | none => none
      | vNull => none
      | vUndef => none
      | _ => none
  | none =>
      match current with
      | vNull => none
      | vUndef => none
      | vObj fs =>
          match recur (clobberChild fs (resolveKey caseSen fs k)) with
          | some child2 =>
              some (vObj (setField fs (resolveKey caseSen fs k) child2))
          | none => none
      | vArr xs =>
          match canonIndex k with
          | some i =>
              let child0 := xs.getD i vUndef
              let child := if isContainer child0 then child0 else vObj []
              match recur child with
              | some child2 =>
                  some (vArr ((padTo xs (i + 1) vUndef).set i child2))
              | none => none
          | none => none
      | _ => none

/-- The loop and final assignment of `_setValueByPath` over the remaining
keys, returning the updated `current`. -/
def setKeys (caseSen : Bool) (v : Value) : Value → List String → Option Value
  | current, [] => some current
  | current, k :: rest =>
      match rest with
      | [] => setKeysLast caseSen v current k
      | _ :: _ =>
          setKeysMidWith caseSen current k
            (fun child => setKeys caseSen v child rest)

/-- `_setValueByPath(obj, path, value)`: an empty path returns `value`
itself; a falsy `obj` routes the walk into a fresh `{}` that is then
discarded (the source returns `obj`); otherwise the walk updates `obj`. -/
def setValueByPath (caseSen : Bool) (obj : Value) (path : String) (v : Value) :
    Option Value :=
  if path = "" then some v
  else if falsy obj then
    match setKeys caseSen v (vObj []) (splitDots path) with
    | some _ => some obj
    | none => none
  else setKeys caseSen v obj (splitDots path)

/-! ### Quota engine (`_checkQuotaBeforeSet`, `_calculateFolderSize`) -/

/-- Folder-prefix match:
`path.startsWith(folderPath + '\\') || path === folderPath`. -/
def folderMatches (path folderPath : String) : Bool :=
  strStartsWith path (folderPath ++ "\\") || path == folderPath

/-- `_calculateFolderSize`: sum of serialized sizes of the values at flat
keys matching the folder prefix. -/
def calcFolderSize (db : Value) (folderPath : String) : Nat :=
  ((jsEntries db).filter (fun e => folderMatches e.1 folderPath)).foldl
    (fun a e => a + calcSize e.2) 0

/-- `db[path] ? _calculateSize(db[path]) : 0`: the size of the value already
stored at the flat key, with a falsy stored value counting as 0. -/
def currentPathSize (db : Value) (path : String) : Nat :=
  if falsy (jsGetProp db path) then 0 else calcSize (jsGetProp db path)

/-- Projected folder size after the write:
`currentFolderSize - currentPathSize + newValueSize`. -/
def folderProjected (db : Value) (path : String) (v : Value)
    (folderPath : String) : Int :=
  (calcFolderSize db folderPath : Int) - currentPathSize db path + calcSize v

/-- Projected whole-database size after the write:
`currentSize - currentPathSize + newValueSize`. -/
def globalProjected (db : Value) (path : String) (v : Value) : Int :=
  (calcSize db : Int) - currentPathSize db path + calcSize v

/-- Result of `_checkQuotaBeforeSet` together with the `quotaMessage` it
leaves behind (`none` / `storedNull` / `cannotSave` / `meet`). -/
structure QuotaCheck where
  allowed : Bool
  storeNull : Bool
  msg : Option String
deriving DecidableEq, Repr

/-- The global-quota half of `_checkQuotaBeforeSet` (lines 124-144). -/
def globalQuotaCheck (quota : Option Int) (db : Value) (path : String)
    (v : Value) : QuotaCheck :=
  match quota with
  | none => ⟨true, false, none⟩
  | some q =>
      let projected := globalProjected db path v
      if projected > q then
        if (calcSize v : Int) ≤ q then ⟨true, true, some "storedNull"⟩
        else ⟨false, false, some "cannotSave"⟩
      else if projected = q then ⟨true, false, some "meet"⟩
      else ⟨true, false, none⟩

/-- `_checkQuotaBeforeSet`: the first folder quota whose folder matches the
path is examined; if the projected folder size exceeds it the check returns
there (`storedNull` when the candidate alone fits, otherwise `cannotSave`);
otherwise the loop `break`s and the global quota is checked. -/
def checkQuotaBeforeSet (folderQuotas : List (String × Int))
    (quota : Option Int) (db : Value) (path : String) (v : Value) :
    QuotaCheck :=
  match folderQuotas.find? (fun e => folderMatches path e.1) with
  | some (fp, q) =>
      if folderProjected db path v fp > q then
        if (calcSize v : Int) ≤ q then ⟨true, true, some "storedNull"⟩
        else ⟨false, false, some "cannotSave"⟩
      else globalQuotaCheck quota db path v
  | none => globalQuotaCheck quota db path v

/-! ### Folder deletion strategies (`_deleteFolder`, `_deleteRootKeys`,
`_deleteFolderContents`, `_deleteNestedFolders`)

These operate on `Object.entries` of the flat map, which is modelled
directly as the association list of (flat key, value) pairs. -/

/-- `_deleteFolder`: keep only keys outside the folder prefix. -/
def deleteFolder (db : List (String × Value)) (folderPath : String) :
    List (String × Value) :=
  db.filter (fun e => !(strStartsWith e.1 (folderPath ++ "\\")) && e.1 ≠ folderPath)

/-- `_deleteRootKeys`: keep keys that are not under the folder prefix, or
whose remainder after the prefix and separator contains no further
separator. -/
def deleteRootKeys (db : List (String × Value)) (folderPath : String) :
    List (String × Value) :=
  db.filter (fun e =>
    !(strStartsWith e.1 (folderPath ++ "\\")) ||
      (strStartsWith e.1 (folderPath ++ "\\") &&
        !(strContains (e.1.drop (folderPath.length + 1)) '\\')))

/-- `_deleteFolderContents` (strategy `structure`): keys matching the folder
prefix keep their key but get an empty object as value. -/
def deleteFolderContents (db : List (String × Value)) (folderPath : String) :
    List (String × Value) :=
  db.map (fun e =>
    if strStartsWith e.1 (folderPath ++ "\\") || e.1 == folderPath then
      (e.1, vObj [])
    else e)

/-- `_deleteNestedFolders`: keep keys that are not under the folder prefix,
or whose remainder after the prefix and separator contains no further
separator. (The source body is identical to `_deleteRootKeys`.) -/
def deleteNestedFolders (db : List (String × Value)) (folderPath : String) :
    List (String × Value) :=
  db.filter (fun e =>
    !(strStartsWith e.1 (folderPath ++ "\\")) ||
      (strStartsWith e.1 (folderPath ++ "\\") &&
        !(strContains (e.1.drop (folderPath.length + 1)) '\\')))

/-! ### Operation pipelines (`get`, `set`, `setShortcut`, `keys`)

The root store (`localStorage['fastLS']` after decoding) maps database names
to flat maps; `_getDatabase` reads `root[dbName] || {}` and `_saveDatabase`
writes `root[dbName]` back. The embedded pipelines are the `async`
operation bodies, which hold the core algorithm for both execution modes. -/

/-- The decoded root store: database name to stored flat-map value. -/
abbrev Root := List (String × Value)

/-- Adapter-instance configuration relevant to the core: bound database
name, case sensitivity, folder quotas (insertion order), global quota. -/
structure Config where
  dbName : String
  caseSen : Bool
  folderQuotas : List (String × Int)
  quota : Option Int

/-- Root-store lookup. -/
def lookupRoot : Root → String → Option Value
  | [], _ => none
  | (k2, v) :: rest, k => if k2 = k then some v else lookupRoot rest k

/-- Root-store write (replace in place or append). -/
def setRoot : Root → String → Value → Root
  | [], k, v => [(k, v)]
  | (k2, w) :: rest, k, v =>
      if k2 = k then (k2, v) :: rest else (k2, w) :: setRoot rest k v

/-- `_getDatabase` (synchronous local-storage view): `root[dbName] || {}`. -/
def getDb (root : Root) (name : String) : Value :=
  match lookupRoot root name with
  | some v => if falsy v then vObj [] else v
  | none => vObj []

/-- Outcome of a successful `set` call: the updated root store, the quota
decision, and the `quotaMessage` left on the instance. -/
structure SetOutcome where
  root : Root
  allowed : Bool
  storeNull : Bool
  quotaMessage : Option String
deriving Repr

/-- The `set(fullPath, value)` operation body: parse, validate a nonempty
path, resolve the target database (a `name:` prefix addresses another
database with this instance's quotas), quota-check, store `null` instead of
the candidate when instructed, write through `_setValueByPath` and save.
`Except.error` models a thrown-and-caught error (the call returns
`error.message`), raised before any save. A disallowed quota check returns
without saving. -/
def setOp (cfg : Config) (root : Root) (fullPath : String) (value : Value) :
    Except String SetOutcome :=
  let parsed := parseFullPath fullPath
  match (if parsed.path ≠ "" then validatePath parsed.path else none) with
  | some err => .error err
  | none =>
      let targetName := parsed.dbName.getD cfg.dbName
      let db := getDb root targetName
      let qc := checkQuotaBeforeSet cfg.folderQuotas cfg.quota db parsed.path value
      if qc.allowed then
        let valueToStore := if qc.storeNull then vNull else value
        match setValueByPath cfg.caseSen db parsed.path valueToStore with
        | some db2 => .ok ⟨setRoot root targetName db2, true, qc.storeNull, qc.msg⟩
        | none => .error "TypeError"
      else .ok ⟨root, false, qc.storeNull, qc.msg⟩

/-- A stored shortcut sentinel: an object whose
`__fastls_exception_shortcut` field holds a truthy target path string
(`setShortcut` stores exactly this shape). -/
def isShortcutTarget (v : Value) : Option String :=
  match v with
  | vObj fs =>
      match lookupField fs "__fastls_exception_shortcut" with
      | some (vStr s) => if s = "" then none else some s
      | _ => none
  | _ => none

/-- The `get(fullPath)` operation body, fuel-bounded: parse, resolve the
target database, read the direct flat value; a shortcut sentinel re-issues
the whole `get` on its target path (from the target instance) with no
visited-set or cycle guard; otherwise traverse with `_getValueByPath`.
`none` means the fuel ran out: the source recursion has no other way to
stop on a shortcut chain. -/
def getOp (cfg : Config) (root : Root) : Nat → String → Option Value
  | 0, _ => none
  | fuel + 1, fullPath =>
      let parsed := parseFullPath fullPath
      let targetName := parsed.dbName.getD cfg.dbName
      let db := getDb root targetName
      match isShortcutTarget (jsGetProp db parsed.path) with
      | some target => getOp { cfg with dbName := targetName } root fuel target
      | none => some (getValueByPath cfg.caseSen db parsed.path)

/-- `setShortcut(name, targetPath)` delegates to `set` with the sentinel. -/
def setShortcutOp (cfg : Config) (root : Root) (name targetPath : String) :
    Except String SetOutcome :=
  setOp cfg root name (vObj [("__fastls_exception_shortcut", vStr targetPath)])

/-- The `keys()` operation body: `Object.keys` of the flat map. -/
def keysOp (cfg : Config) (root : Root) : List String :=
  keysOf (getDb root cfg.dbName)

/-! ## Concrete fixtures used by the claim theorems -/

/-- A plain configuration: case-sensitive, no quotas. -/
def cfgPlain : Config := ⟨"db", true, [], none⟩

/-- A case-insensitive configuration, no quotas. -/
def cfgCaseIns : Config := ⟨"db", false, [], none⟩

/-- The spec's folder-deletion key set `{a, a\b, a\b\c, a\d}`. -/
def exFolderDB : List (String × Value) :=
  [("a", vNum 1), ("a\\b", vNum 2), ("a\\b\\c", vNum 3), ("a\\d", vNum 4)]

/-- A shortcut sentinel value targeting `t`, as stored by `setShortcut`. -/
def shortcutTo (t : String) : Value :=
  vObj [("__fastls_exception_shortcut", vStr t)]

/-- A root store whose database `db` holds the cyclic shortcut chain
`x -> y -> x`. -/
def rootCyclic : Root :=
  [("db", vObj [("x", shortcutTo "y"), ("y", shortcutTo "x")])]

/-! ## C1 — folder-deletion strategies on `{a, a\b, a\b\c, a\d}` -/

/-- C1, counterexample: on the key set `{a, a\b, a\b\c, a\d}` with folder
`a`, the `root` strategy leaves the keys `{a, a\b, a\d}` — not `{a\b\c}` as
claimed (the folder key `a` and both direct children survive, the nested
`a\b\c` is removed) — and the `nestedFolders` strategy also leaves
`{a, a\b, a\d}`, not `{a\b, a\d}`. -/
theorem claimC1_cex :
    (deleteRootKeys exFolderDB "a").map Prod.fst = ["a", "a\\b", "a\\d"]
    ∧ ["a", "a\\b", "a\\d"] ≠ ["a\\b\\c"]
    ∧ (deleteNestedFolders exFolderDB "a").map Prod.fst = ["a", "a\\b", "a\\d"]
    ∧ ["a", "a\\b", "a\\d"] ≠ ["a\\b", "a\\d"] :=
  ⟨rfl, by decide, rfl, by decide⟩

/-- C1 (corrected): on the flat map with keys `{a, a\b, a\b\c, a\d}` and
target folder `a`: `folder` removes all four keys; `root` leaves
`{a, a\b, a\d}` (it removes only keys nested deeper than direct children —
its body is identical to `nestedFolders`); `nestedFolders` likewise leaves
`{a, a\b, a\d}` (the folder key itself also survives); `structure` keeps all
four keys with each value replaced by an empty object. -/
theorem claimC1 :
    deleteFolder exFolderDB "a" = []
    ∧ deleteRootKeys exFolderDB "a" =
        [("a", vNum 1), ("a\\b", vNum 2), ("a\\d", vNum 4)]
    ∧ deleteNestedFolders exFolderDB "a" =
        [("a", vNum 1), ("a\\b", vNum 2), ("a\\d", vNum 4)]
    ∧ deleteFolderContents exFolderDB "a" =
        [("a", vObj []), ("a\\b", vObj []), ("a\\b\\c", vObj []),
          ("a\\d", vObj [])] :=
  ⟨rfl, rfl, rfl, rfl⟩

/-! ## C2 — path rejection in `set` -/

/-- C2, counterexample: `set("a:b", v)` does not fail: the `a:` prefix is
parsed as a database name, the path validates, and the value is written to
database `a` at key `b` — the result is a successful outcome, not an
`InvalidPath` error. -/
theorem claimC2_cex :
    setOp cfgPlain [] "a:b" (vNum 7) =
      .ok ⟨[("a", vObj [("b", vNum 7)])], true, false, none⟩ := rfl

/-- C2 (corrected): `set("a\\b", v)` fails with the invalid-path error
before any write (the raw path's backslash survives normalization and
`_validatePath` throws before the database is loaded or saved); but
`set("a:b", v)` does not fail — `a:` is consumed as a database prefix and
the write lands in database `a` at key `b`; and `set("..", v)` does not
fail — `..` normalizes to the empty path, validation is skipped, and
`_setValueByPath` with an empty path replaces the entire database content
with `v`. -/
theorem claimC2 :
    setOp cfgPlain [] "a\\b" (vNum 7) =
      .error "Path cannot contain colon or backslash in key names"
    ∧ setOp cfgPlain [] "a:b" (vNum 7) =
        .ok ⟨[("a", vObj [("b", vNum 7)])], true, false, none⟩
    ∧ setOp cfgPlain [("db", vObj [("k", vNum 1)])] ".." (vNum 7) =
        .ok ⟨[("db", vNum 7)], true, false, none⟩ :=
  ⟨rfl, rfl, rfl⟩

/-! ## C3 — cyclic shortcut chains -/

/-- C3 (code bug): on the cyclic chain `x -> y -> x`, `get("x")` never
terminates: the source re-issues `get` on the shortcut target with no
visited set and no cycle check, so for every fuel bound the resolution is
still chasing the chain (`none` = fuel exhausted). There is no
`CyclicShortcut` outcome anywhere in the code. -/
theorem claimC3 (fuel : Nat) :
    getOp cfgPlain rootCyclic fuel "x" = none
    ∧ getOp cfgPlain rootCyclic fuel "y" = none := by
  induction fuel with
  | zero => exact ⟨rfl, rfl⟩
  | succ n ih =>
      refine ⟨?_, ?_⟩
      · exact (show getOp cfgPlain rootCyclic (n + 1) "x"
            = getOp cfgPlain rootCyclic n "y" from rfl).trans ih.2
      · exact (show getOp cfgPlain rootCyclic (n + 1) "y"
            = getOp cfgPlain rootCyclic n "x" from rfl).trans ih.1

/-! ## C9 — case-insensitive lookup preserving stored casing -/

/-- C9 (confirmed): with case sensitivity disabled, `set("User", {Name:"A"})`
stores under key `User`; `get` addressed with the lower-cased path
`user.name` (top-level key `user`, field `name` in the in-value dot syntax)
returns `"A"` by matching `User` and `Name` case-insensitively and reading
under the original casing; and `keys()` still reports `User`, not `user`. -/
theorem claimC9 :
    setOp cfgCaseIns [] "User" (vObj [("Name", vStr "A")]) =
      .ok ⟨[("db", vObj [("User", vObj [("Name", vStr "A")])])],
        true, false, none⟩
    ∧ getOp cfgCaseIns [("db", vObj [("User", vObj [("Name", vStr "A")])])]
        2 "user.name" = some (vStr "A")
    ∧ keysOp cfgCaseIns [("db", vObj [("User", vObj [("Name", vStr "A")])])] =
        ["User"] :=
  ⟨rfl, rfl, rfl⟩

/-! ## C10 — `..` past the root clamps silently -/

/-- The token stream with exactly the excess `..` tokens removed: a `..`
token arriving when `d` (the number of segments currently on the stack) is
zero is dropped; other tokens are kept and update `d` the way the
normalization stack would. -/
def dropExcessAux : Nat → List String → List String
  | _, [] => []
  | d, p :: ps =>
      if p = ".." then
        match d with
        | 0 => dropExcessAux 0 ps
        | n + 1 => p :: dropExcessAux n ps
      else if p = "" ∨ p = "." then p :: dropExcessAux d ps
      else p :: dropExcessAux (d + 1) ps

/-- The normalization loop is insensitive to excess `..` tokens, from any
starting stack whose length matches the counter. -/
theorem normAux_dropExcess (ps : List String) :
    ∀ acc : List String, normAux acc ps = normAux acc (dropExcessAux acc.length ps) := by
  induction ps with
  | nil => intro acc; rfl
  | cons p ps ih =>
      intro acc
      by_cases hdd : p = ".."
      · subst hdd
        match hacc : acc with
        | [] => simpa [normAux, dropExcessAux] using ih []
        | a :: as =>
            have hlen : (a :: as).length = as.length + 1 := rfl
            have hdl : ((a :: as).dropLast).length = as.length := by
              simp [List.length_dropLast]
            calc normAux (a :: as) (".." :: ps)
                = normAux ((a :: as).dropLast) ps := by simp [normAux]
              _ = normAux ((a :: as).dropLast)
                    (dropExcessAux ((a :: as).dropLast).length ps) :=
                  ih ((a :: as).dropLast)
              _ = normAux (a :: as) (dropExcessAux (a :: as).length (".." :: ps)) := by
                  rw [hdl]
                  simp [normAux, dropExcessAux]
      · by_cases hske : p = "" ∨ p = "."
        · calc normAux acc (p :: ps) = normAux acc ps := by simp [normAux, hske, hdd]
            _ = normAux acc (dropExcessAux acc.length ps) := ih acc
            _ = normAux acc (dropExcessAux acc.length (p :: ps)) := by
                simp [normAux, dropExcessAux, hske, hdd]
        · calc normAux acc (p :: ps) = normAux (acc ++ [p]) ps := by
                simp [normAux, hske, hdd]
            _ = normAux (acc ++ [p]) (dropExcessAux (acc ++ [p]).length ps) :=
                ih (acc ++ [p])
            _ = normAux acc (dropExcessAux acc.length (p :: ps)) := by
                simp [normAux, dropExcessAux, hske, hdd]

/-- C10 (confirmed): `_normalizePath` never errors on exhausted `..`
navigation — a `..` token arriving on an empty segment stack is a silent
no-op (`normalized.pop()` of an empty array), so every raw path normalizes
to exactly what it would normalize to with the excess `..` tokens deleted
from its token stream, and a leading excess `..` may simply be dropped. -/
theorem claimC10 (raw : String) (ps : List String) :
    normalizePath raw =
      String.intercalate "\\"
        (normParts (dropExcessAux 0 (splitSeps (stripFlagPrefix raw))))
    ∧ normAux [] (".." :: ps) = normAux [] ps := by
  constructor
  · unfold normalizePath normParts
    rw [show (0 : Nat) = ([] : List String).length from rfl]
    rw [← normAux_dropExcess]
  · rfl

/-- C10, instance: `..\x` normalizes like `x`. -/
theorem claimC10_wit :
    normalizePath "..\\x" =
      String.intercalate "\\"
        (normParts (dropExcessAux 0 (splitSeps (stripFlagPrefix "..\\x"))))
    ∧ normAux [] (".." :: ["x"]) = normAux [] ["x"] :=
  claimC10 "..\\x" ["x"]

/-! ## C4 — folder quota does not short-circuit on a fitting write -/

/-- C4, counterexample: a write to `a` under folder quota 100 that fits the
folder budget (projected folder size 4) nevertheless gets the *global*
quota applied: with global quota 5 the outcome is `storedNull`, while with
no global quota it is a plain allow — so the folder budget was not the only
budget applied, contradicting the claim that the global quota is never
additionally applied. -/
theorem claimC4_cex :
    folderProjected (vObj []) "a" (vStr "ab") "a" ≤ 100
    ∧ checkQuotaBeforeSet [("a", 100)] (some 5) (vObj []) "a" (vStr "ab") =
        ⟨true, true, some "storedNull"⟩
    ∧ checkQuotaBeforeSet [("a", 100)] none (vObj []) "a" (vStr "ab") =
        ⟨true, false, none⟩
    ∧ (⟨true, true, some "storedNull"⟩ : QuotaCheck) ≠ ⟨true, false, none⟩ :=
  ⟨by decide, rfl, rfl, by decide⟩

/-- C4 (corrected): the folder-quota branch short-circuits only when the
projected folder size exceeds the folder budget (then the outcome is
decided there, independent of the global quota); when the write fits within
the folder budget the loop `break`s and the global quota is additionally
applied, exactly as if only the global check ran. -/
theorem claimC4 (fqs : List (String × Int)) (g g2 : Option Int)
    (db v : Value) (path fp : String) (q : Int)
    (hfind : fqs.find? (fun e => folderMatches path e.1) = some (fp, q)) :
    (folderProjected db path v fp > q →
      checkQuotaBeforeSet fqs g db path v = checkQuotaBeforeSet fqs g2 db path v)
    ∧ (folderProjected db path v fp ≤ q →
      checkQuotaBeforeSet fqs g db path v = globalQuotaCheck g db path v) := by
  constructor
  · intro h
    simp only [checkQuotaBeforeSet, hfind, if_pos h]
  · intro h
    simp only [checkQuotaBeforeSet, hfind, if_neg (not_lt.mpr h)]

/-- C4, witness: the fitting-write half applied at the counterexample
input. -/
theorem claimC4_wit :
    checkQuotaBeforeSet [("a", 100)] (some 5) (vObj []) "a" (vStr "ab") =
      globalQuotaCheck (some 5) (vObj []) "a" (vStr "ab") :=
  (claimC4 [("a", 100)] (some 5) none (vObj []) (vStr "ab") "a" "a" 100
    rfl).2 (by decide)

/-! ## C6 — `meet` status on exact budget fit -/

/-- C6, counterexample: with folder quota 4 on `a` and no global quota,
writing a value whose projected folder size is exactly 4 leaves the quota
message empty — the folder branch never sets `meet`. -/
theorem claimC6_cex :
    folderProjected (vObj []) "a" (vStr "ab") "a" = 4
    ∧ checkQuotaBeforeSet [("a", 4)] none (vObj []) "a" (vStr "ab") =
        ⟨true, false, none⟩
    ∧ (some "meet" : Option String) ≠ none :=
  ⟨by decide, rfl, by decide⟩

/-- C6 (corrected): `meet` is produced only by the global-quota branch —
when no folder quota matches and the projected database size equals the
global budget exactly, the status is `meet`; the folder branch sets no
status at all when the projected folder size equals the folder budget
exactly (the check falls through, here with no global quota configured). -/
theorem claimC6 (fqs : List (String × Int)) (db v : Value)
    (path fp : String) (g q : Int) :
    (fqs.find? (fun e => folderMatches path e.1) = none →
      globalProjected db path v = g →
      checkQuotaBeforeSet fqs (some g) db path v = ⟨true, false, some "meet"⟩)
    ∧ (fqs.find? (fun e => folderMatches path e.1) = some (fp, q) →
      folderProjected db path v fp = q →
      checkQuotaBeforeSet fqs none db path v = ⟨true, false, none⟩) := by
  constructor
  · intro hfind heq
    simp only [checkQuotaBeforeSet, hfind, globalQuotaCheck, heq]
    simp
  · intro hfind heq
    simp only [checkQuotaBeforeSet, hfind, if_neg (not_lt.mpr (le_of_eq heq))]
    rfl

/-- C6, witness: both halves applied at concrete inputs (global quota 6 met
exactly by writing `"ab"` into an empty database; folder quota 4 met
exactly with no message). -/
theorem claimC6_wit :
    checkQuotaBeforeSet [] (some 6) (vObj []) "u" (vStr "ab") =
      ⟨true, false, some "meet"⟩
    ∧ checkQuotaBeforeSet [("a", 4)] none (vObj []) "a" (vStr "ab") =
        ⟨true, false, none⟩ :=
  ⟨(claimC6 [] (vObj []) (vStr "ab") "u" "a" 6 4).1 rfl (by decide),
    (claimC6 [("a", 4)] (vObj []) (vStr "ab") "a" "a" 6 4).2 rfl (by decide)⟩

/-! ## C7 — `getAt` misses yield `undefined` -/

/-- Traversal starting from `undefined` yields `undefined`. -/
theorem getGo_undef (cs : Bool) (ks : List String) : getGo cs vUndef ks = vUndef := by
  cases ks with
  | nil => rfl
  | cons k ks => simp [getGo, isContainer]

/-- C7, counterexample: on the tree `0` (a non-object) with sub-path `a`,
`_getValueByPath` returns the tree itself, not `undefined`: the falsy-tree
guard `if (!path || !obj) return obj` fires before traversal ever checks
for a container. -/
theorem claimC7_cex :
    getValueByPath true (vNum 0) "a" = vNum 0 ∧ vNum 0 ≠ vUndef :=
  ⟨rfl, fun h => Value.noConfusion h⟩

/-- C7 (corrected): for a *falsy* tree (`null`, `undefined`, `0`, `""`,
`false`), `getAt` returns the tree unchanged even on a nonempty sub-path;
in every other case traversal returns `undefined` the moment it reaches a
non-object/non-array with segments remaining, a missing object property
(in either case-sensitivity mode), or an array-index segment whose named
property is absent or not an array or whose index is out of range — and it
never throws (the embedding is a total function). -/
theorem claimC7 :
    (∀ (cs : Bool) (t : Value) (ks : List String),
      ks ≠ [] → isContainer t = false → getGo cs t ks = vUndef)
    ∧ (∀ (cs : Bool) (t : Value) (p : String),
      falsy t = true → getValueByPath cs t p = t)
    ∧ (∀ (fs : List (String × Value)) (k : String) (ks : List String),
      findArrayMatch k = none → lookupField fs k = none →
      getGo true (vObj fs) (k :: ks) = vUndef)
    ∧ (∀ (fs : List (String × Value)) (k : String) (ks : List String),
      findArrayMatch k = none → caseFind (fs.map Prod.fst) k = none →
      getGo false (vObj fs) (k :: ks) = vUndef)
    ∧ (∀ (cs : Bool) (fs : List (String × Value)) (name k : String)
        (idx : Nat) (ks : List String),
      findArrayMatch k = some (name, idx) →
      isArrV (jsGetProp (vObj fs) name) = false →
      getGo cs (vObj fs) (k :: ks) = vUndef)
    ∧ (∀ (cs : Bool) (fs : List (String × Value)) (name k : String)
        (idx : Nat) (ks : List String) (xs : List Value),
      findArrayMatch k = some (name, idx) →
      lookupField fs name = some (vArr xs) → xs.length ≤ idx →
      getGo cs (vObj fs) (k :: ks) = vUndef) := by
  refine ⟨?_, ?_, ?_, ?_, ?_, ?_⟩
  · intro cs t ks hks ht
    cases ks with
    | nil => exact absurd rfl hks
    | cons k ks => simp [getGo, ht]
  · intro cs t p ht
    simp [getValueByPath, ht]
  · intro fs k ks hk hlk
    have hstep : getStep true (vObj fs) k = vUndef := by
      simp [getStep, hk, jsGetProp, hlk]
    simp only [getGo, isContainer, if_pos, hstep]
    exact getGo_undef true ks
  · intro fs k ks hk hcf
    have hcf2 : caseFind (keysOf (vObj fs)) k = none := hcf
    have hstep : getStep false (vObj fs) k = vUndef := by
      unfold getStep
      rw [hk]
      show (match caseFind (keysOf (vObj fs)) k with
        | some k2 => jsGetProp (vObj fs) k2
        | none => vUndef) = vUndef
      rw [hcf2]
    simp only [getGo, isContainer, if_pos, hstep]
    exact getGo_undef false ks
  · intro cs fs name k idx ks hk harr
    have hstep : getStep cs (vObj fs) k = vUndef := by
      unfold getStep
      rw [hk]
      show (match jsGetProp (vObj fs) name with
        | vArr xs => xs.getD idx vUndef
        | _ => vUndef) = vUndef
      cases hw : jsGetProp (vObj fs) name with
      | vArr xs => rw [hw] at harr; exact absurd harr (by simp [isArrV])
      | vNull => rfl
      | vUndef => rfl
      | vBool b => rfl
      | vNum n => rfl
      | vStr s => rfl
      | vObj gs => rfl
    simp only [getGo, isContainer, if_pos, hstep]
    exact getGo_undef cs ks
  · intro cs fs name k idx ks xs hk hlk hlen
    have hstep : getStep cs (vObj fs) k = vUndef := by
      simp [getStep, hk, jsGetProp, hlk, List.getD, List.getElem?_eq_none hlen]
    simp only [getGo, isContainer, if_pos, hstep]
    exact getGo_undef cs ks

/-- C7, witness: the six halves applied at concrete inputs (truthy
primitive tree; falsy `null` tree; missing object key, case-sensitive and
case-insensitive; array segment on an absent property; array segment on a
non-array property; out-of-range array index). -/
theorem claimC7_wit :
    getGo true (vNum 5) ["a"] = vUndef
    ∧ getValueByPath false vNull "a" = vNull
    ∧ getGo true (vObj [("b", vNum 1)]) ["a"] = vUndef
    ∧ getGo false (vObj [("B", vNum 1)]) ["a"] = vUndef
    ∧ getGo true (vObj []) ["items[0]"] = vUndef
    ∧ getGo false (vObj [("items", vNum 5)]) ["items[0]"] = vUndef
    ∧ getGo true (vObj [("items", vArr [vNum 5])]) ["items[3]"] = vUndef :=
  ⟨claimC7.1 true (vNum 5) ["a"] (by decide) rfl,
    claimC7.2.1 false vNull "a" rfl,
    claimC7.2.2.1 [("b", vNum 1)] "a" [] rfl rfl,
    claimC7.2.2.2.1 [("B", vNum 1)] "a" [] rfl rfl,
    claimC7.2.2.2.2.1 true [] "items" "items[0]" 0 [] rfl rfl,
    claimC7.2.2.2.2.1 false [("items", vNum 5)] "items" "items[0]" 0 [] rfl rfl,
    claimC7.2.2.2.2.2 true [("items", vArr [vNum 5])] "items" "items[3]" 3 []
      [vNum 5] rfl rfl (by decide)⟩

/-! ## C5 — global quota `storedNull` fallback -/

/-- The claim's notion of the current serialized size of the value already
stored at the target key: 0 when absent (`undefined`), otherwise its
serialized size. (The source's `db[path] ? size : 0` additionally treats
present-but-falsy values as 0, which only makes the projected size
larger.) -/
def storedSize (db : Value) (key : String) : Nat :=
  match jsGetProp db key with
  | vUndef => 0
  | v => calcSize v

/-- The source's truthiness-based size of the stored value is at most the
claim's presence-based one. -/
theorem currentPathSize_le_storedSize (db : Value) (key : String) :
    currentPathSize db key ≤ storedSize db key := by
  unfold currentPathSize storedSize
  cases h : jsGetProp db key <;> simp [falsy] <;> split_ifs <;> simp

/-- Reading back a field just written. -/
theorem lookupField_setField (fs : List (String × Value)) (k : String)
    (v : Value) : lookupField (setField fs k v) k = some v := by
  induction fs with
  | nil => simp [setField, lookupField]
  | cons e fs ih =>
      obtain ⟨k2, w⟩ := e
      by_cases h : k2 = k
      · simp [setField, lookupField, h]
      · simp [setField, lookupField, h, ih]

/-- Reading back a database just saved. -/
theorem lookupRoot_setRoot (root : Root) (n : String) (d : Value) :
    lookupRoot (setRoot root n d) n = some d := by
  induction root with
  | nil => simp [setRoot, lookupRoot]
  | cons e root ih =>
      obtain ⟨k2, w⟩ := e
      by_cases h : k2 = n
      · simp [setRoot, lookupRoot, h]
      · simp [setRoot, lookupRoot, h, ih]

/-- C5 (confirmed): writing `value` at a plain top-level key under a global
budget `g`, with no folder quotas, where the projected size
`S - old + C` exceeds `g` but the candidate alone fits (`C ≤ g`): the write
is allowed, the quota message becomes `storedNull`, and the value actually
saved at the key is `null`, not the candidate. The key-shape hypotheses
say `key` is a plain single-segment top-level key (its own canonical form,
nonempty, no `:`/`\`/`.`, not an array-index segment). -/
theorem claimC5 (root : Root) (dbN key : String)
    (fs : List (String × Value)) (value : Value) (g : Int)
    (hdb : getDb root dbN = vObj fs)
    (hparse : parseFullPath key = ⟨none, key⟩)
    (hne : key ≠ "")
    (hnc : strContains key ':' = false)
    (hnb : strContains key '\\' = false)
    (hnd : splitDots key = [key])
    (hna : findArrayMatch key = none)
    (hover : (calcSize (vObj fs) : Int) - storedSize (vObj fs) key
        + calcSize value > g)
    (hfit : (calcSize value : Int) ≤ g) :
    setOp ⟨dbN, true, [], some g⟩ root key value =
      .ok ⟨setRoot root dbN (vObj (setField fs key vNull)), true, true,
        some "storedNull"⟩
    ∧ jsGetProp (getDb (setRoot root dbN (vObj (setField fs key vNull))) dbN)
        key = vNull := by
  have hdd : key ≠ ".." := by
    intro h
    rw [h] at hnd
    exact absurd hnd (by decide)
  have hval : validatePath key = none := by
    unfold validatePath
    rw [if_neg, if_neg hdd]
    intro hcon
    rcases hcon.2 with h | h
    · rw [hnc] at h; exact Bool.false_ne_true h
    · rw [hnb] at h; exact Bool.false_ne_true h
  have hproj : globalProjected (vObj fs) key value > g := by
    unfold globalProjected
    have hle := currentPathSize_le_storedSize (vObj fs) key
    have hle2 : (currentPathSize (vObj fs) key : Int) ≤ storedSize (vObj fs) key := by
      exact_mod_cast hle
    linarith
  have hqc : checkQuotaBeforeSet [] (some g) (vObj fs) key value =
      ⟨true, true, some "storedNull"⟩ := by
    unfold checkQuotaBeforeSet
    simp only [List.find?_nil]
    simp only [globalQuotaCheck]
    rw [if_pos hproj, if_pos hfit]
  have hset : setValueByPath true (vObj fs) key vNull =
      some (vObj (setField fs key vNull)) := by
    unfold setValueByPath
    rw [if_neg hne, hnd]
    have hfalsy : falsy (vObj fs) = false := rfl
    rw [if_neg (by simp [hfalsy])]
    show setKeysLast true vNull (vObj fs) key = some (vObj (setField fs key vNull))
    unfold setKeysLast
    rw [hna]
    rfl
  constructor
  · unfold setOp
    rw [hparse]
    simp only [ne_eq, hne, not_false_eq_true, if_true, hval]
    simp only [Option.getD_none, Option.getD_some, hdb, hqc]
    simp only [if_pos trivial, hset]
  · unfold getDb
    rw [lookupRoot_setRoot]
    simp only [falsy, Bool.false_eq_true, if_false]
    show (lookupField (setField fs key vNull) key).getD vUndef = vNull
    rw [lookupField_setField]
    rfl

/-- C5, witness: writing `"ab"` (serialized size 4) at key `u` into an empty
database (size 2) under global budget 5: projected `2 - 0 + 4 = 6 > 5`,
candidate `4 ≤ 5`, so the outcome is `storedNull` and the stored value is
`null`. -/
theorem claimC5_wit :
    setOp ⟨"db", true, [], some 5⟩ [] "u" (vStr "ab") =
      .ok ⟨[("db", vObj [("u", vNull)])], true, true, some "storedNull"⟩
    ∧ jsGetProp (getDb [("db", vObj [("u", vNull)])] "db") "u" = vNull := by
  have h := claimC5 [] "db" "u" [] (vStr "ab") 5 rfl rfl (by decide) rfl rfl
    rfl rfl (by decide) (by decide)
  exact h

/-! ## C8 — `getAt`/`setAt` round trip -/

/-- `padTo` reaches exactly the maximum of the old length and the target. -/
theorem padTo_length (xs : List Value) (n : Nat) (f : Value) :
    (padTo xs n f).length = max xs.length n := by
  simp [padTo]
  omega

/-- Reading the element just written. -/
theorem getD_set_self {α : Type} (l : List α) (i : Nat) (a d : α)
    (h : i < l.length) : (l.set i a).getD i d = a := by
  induction l generalizing i with
  | nil => simp at h
  | cons x l ih =>
      cases i with
      | zero => rfl
      | succ i =>
          simp only [List.set, List.getD, List.getElem?_cons_succ]
          exact ih i (by simpa using h)

/-- Writing to an existing key leaves the key list unchanged. -/
theorem mapFst_setField_mem (fs : List (String × Value)) (k : String)
    (v : Value) (h : k ∈ fs.map Prod.fst) :
    (setField fs k v).map Prod.fst = fs.map Prod.fst := by
  induction fs with
  | nil => simp at h
  | cons e fs ih =>
      obtain ⟨k2, w⟩ := e
      by_cases hk : k2 = k
      · simp [setField, hk]
      · have h2 : k ∈ fs.map Prod.fst := by
          rcases List.mem_map.mp h with ⟨e2, he2, hfst⟩
          rcases List.mem_cons.mp he2 with h3 | h3
          · exact absurd (hfst ▸ congrArg Prod.fst h3).symm hk
          · exact List.mem_map.mpr ⟨e2, h3, hfst⟩
        simp [setField, hk, ih h2]

/-- Writing to a fresh key appends it. -/
theorem mapFst_setField_notMem (fs : List (String × Value)) (k : String)
    (v : Value) (h : k ∉ fs.map Prod.fst) :
    (setField fs k v).map Prod.fst = fs.map Prod.fst ++ [k] := by
  induction fs with
  | nil => simp [setField]
  | cons e fs ih =>
      obtain ⟨k2, w⟩ := e
      have hk : k2 ≠ k := by
        intro hkk
        exact h (by simp [hkk])
      have h2 : k ∉ fs.map Prod.fst := fun hm => h (by simp [hm])
      simp [setField, hk, ih h2]

/-- A key whose case-insensitive scan over `keys` fails is not in `keys`. -/
theorem caseFind_none_notMem (keys : List String) (k : String)
    (h : caseFind keys k = none) : k ∉ keys := by
  intro hmem
  have := List.find?_eq_none.mp h k hmem
  simp at this

/-- A failed search skips a whole prefix. -/
theorem find?_append_none {α : Type} (p : α → Bool) :
    ∀ l1 l2 : List α, l1.find? p = none →
      (l1 ++ l2).find? p = l2.find? p := by
  intro l1
  induction l1 with
  | nil => intro l2 _; rfl
  | cons a l1 ih =>
      intro l2 h
      cases hpa : p a with
      | true =>
          exfalso
          have h2 : (a :: l1).find? p = some a := by
            show (match p a with
              | true => some a
              | false => l1.find? p) = some a
            rw [hpa]
          rw [h] at h2
          exact Option.noConfusion h2
      | false =>
          have h1 : l1.find? p = none := by
            have h2 : (a :: l1).find? p = l1.find? p := by
              show (match p a with
                | true => some a
                | false => l1.find? p) = l1.find? p
              rw [hpa]
            rw [← h2]
            exact h
          have h3 : ((a :: l1) ++ l2).find? p = (l1 ++ l2).find? p := by
            show (match p a with
              | true => some a
              | false => (l1 ++ l2).find? p) = (l1 ++ l2).find? p
            rw [hpa]
          rw [h3]
          exact ih l2 h1

/-- A failed case-insensitive scan skips a whole prefix. -/
theorem caseFind_append_none (l1 l2 : List String) (k : String)
    (h : caseFind l1 k = none) : caseFind (l1 ++ l2) k = caseFind l2 k :=
  find?_append_none _ l1 l2 h

/-- The scan finds the key itself in a singleton. -/
theorem caseFind_singleton_self (k : String) : caseFind [k] k = some k := by
  unfold caseFind
  show (match strToLower k == strToLower k with
    | true => some k
    | false => List.find? _ []) = some k
  rw [beq_self_eq_true]

/-- The resolved plain-key write is read back by `getStep` under the same
configuration: case-sensitive mode reads the exact key, case-insensitive
mode re-runs the scan over the (unchanged or extended) key list and lands
on the same actual key. -/
theorem getStep_setField_resolved (cs : Bool) (fs : List (String × Value))
    (k : String) (w : Value) (hm : findArrayMatch k = none) :
    getStep cs (vObj (setField fs (resolveKey cs fs k) w)) k = w := by
  cases cs with
  | true =>
      show getStep true (vObj (setField fs k w)) k = w
      unfold getStep
      rw [hm]
      show (lookupField (setField fs k w) k).getD vUndef = w
      rw [lookupField_setField]
      rfl
  | false =>
      cases hcf : caseFind (fs.map Prod.fst) k with
      | some k2 =>
          have hmem : k2 ∈ fs.map Prod.fst := List.mem_of_find?_eq_some hcf
          have hkeys : (setField fs k2 w).map Prod.fst = fs.map Prod.fst :=
            mapFst_setField_mem fs k2 w hmem
          have hak : resolveKey false fs k = k2 := by
            unfold resolveKey
            rw [hcf]
            rfl
          rw [hak]
          unfold getStep
          rw [hm]
          have hfind2 : caseFind (keysOf (vObj (setField fs k2 w))) k =
              some k2 := by
            show caseFind ((setField fs k2 w).map Prod.fst) k = some k2
            rw [hkeys]
            exact hcf
          show (match caseFind (keysOf (vObj (setField fs k2 w))) k with
            | some k3 => jsGetProp (vObj (setField fs k2 w)) k3
            | none => vUndef) = w
          rw [hfind2]
          show (lookupField (setField fs k2 w) k2).getD vUndef = w
          rw [lookupField_setField]
          rfl
      | none =>
          have hnot : k ∉ fs.map Prod.fst := caseFind_none_notMem _ _ hcf
          have hkeys : (setField fs k w).map Prod.fst = fs.map Prod.fst ++ [k] :=
            mapFst_setField_notMem fs k w hnot
          have hak : resolveKey false fs k = k := by
            unfold resolveKey
            rw [hcf]
            rfl
          rw [hak]
          unfold getStep
          rw [hm]
          have hfind2 : caseFind (keysOf (vObj (setField fs k w))) k =
              some k := by
            show caseFind ((setField fs k w).map Prod.fst) k = some k
            rw [hkeys, caseFind_append_none _ _ _ hcf]
            exact caseFind_singleton_self k
          show (match caseFind (keysOf (vObj (setField fs k w))) k with
            | some k3 => jsGetProp (vObj (setField fs k w)) k3
            | none => vUndef) = w
          rw [hfind2]
          show (lookupField (setField fs k w) k).getD vUndef = w
          rw [lookupField_setField]
          rfl

/-- Array-index segments are read back exactly (the array branch of
`getStep` does a direct, case-independent property read of `name`). -/
theorem getStep_setField_array (cs : Bool) (fs : List (String × Value))
    (name k : String) (idx : Nat) (ys : List Value)
    (hm : findArrayMatch k = some (name, idx)) :
    getStep cs (vObj (setField fs name (vArr ys))) k = ys.getD idx vUndef := by
  simp [getStep, hm, jsGetProp, lookupField_setField]

/-- One intermediate segment of the descent condition, with the recursive
check abstracted as `recur`: the value must be an object, and the child the
matching `_setValueByPath` iteration would descend into must satisfy
`recur`. -/
def descentOkMidWith (caseSen : Bool) (t : Value) (k : String)
    (recur : Value → Bool) : Bool :=
  match findArrayMatch k with
  | some (name, idx) =>
      match t with
      | vObj fs =>
          let child := (padTo (arrAt fs name) (idx + 1) (vObj [])).getD
            idx vUndef
          isObjV child && recur child
      | _ => false
  | none =>
      match t with
      | vObj fs =>
          let child := clobberChild fs (resolveKey caseSen fs k)
          isObjV child && recur child
      | _ => false

/-- Decidable sufficient condition for the `_setValueByPath` descent to meet
only object containers: the last segment lands on an object, and every
intermediate child the walk descends into (the existing child, a freshly
clobbered empty object, or a padded array slot) is an object. This excludes
exactly the throwing cases (primitive intermediates reached through
existing array elements, where the strict-mode assignment throws) and the
unmodelled array corners. -/
def descentOk (caseSen : Bool) : Value → List String → Bool
  | _, [] => true
  | t, k :: rest =>
      match rest with
      | [] => isObjV t
      | _ :: _ =>
          descentOkMidWith caseSen t k
            (fun child => descentOk caseSen child rest)

/-- An ok descent starts at an object. -/
theorem descentOk_isObj (cs : Bool) (t : Value) (ks : List String)
    (hne : ks ≠ []) (h : descentOk cs t ks = true) : isObjV t = true := by
  match ks with
  | [] => exact absurd rfl hne
  | [k] => exact h
  | k :: k2 :: rest =>
      have h2 : descentOkMidWith cs t k
          (fun child => descentOk cs child (k2 :: rest)) = true := h
      unfold descentOkMidWith at h2
      cases hm : findArrayMatch k <;> rw [hm] at h2 <;>
        cases t <;> simp_all [isObjV]

/-- A helper: an object-shaped value is literally a `vObj`. -/
theorem isObjV_exists (t : Value) (h : isObjV t = true) :
    ∃ fs, t = vObj fs := by
  cases t <;> simp_all [isObjV]

/-- The split of a sub-path is never empty. -/
theorem splitDotsAux_ne_nil (l : List Char) :
    ∀ acc : List Char, splitDotsAux acc l ≠ [] := by
  induction l with
  | nil => intro acc; simp [splitDotsAux]
  | cons c cs ih =>
      intro acc
      by_cases hc : c = '.'
      · simp [splitDotsAux, hc]
      · simp only [splitDotsAux, hc, if_false]
        exact ih (c :: acc)

/-- Round trip of the key walk: under an ok descent, `setKeys` succeeds with
an object result, and walking the same keys reads back the written value. -/
theorem setKeys_roundtrip (cs : Bool) (v : Value) :
    ∀ (ks : List String) (t : Value), ks ≠ [] → descentOk cs t ks = true →
    ∃ fs', setKeys cs v t ks = some (vObj fs')
      ∧ getGo cs (vObj fs') ks = v := by
  intro ks
  induction ks with
  | nil => intro t h; exact absurd rfl h
  | cons k ks ih =>
      intro t _ hok
      cases ks with
      | nil =>
          obtain ⟨fs, rfl⟩ := isObjV_exists t hok
          cases hm : findArrayMatch k with
          | some nameIdx =>
              obtain ⟨name, idx⟩ := nameIdx
              refine ⟨setField fs name
                (vArr ((padTo (arrAt fs name) (idx + 1) vUndef).set idx v)),
                ?_, ?_⟩
              · show setKeysLast cs v (vObj fs) k = _
                unfold setKeysLast
                rw [hm]
              · have hlen : idx < (padTo (arrAt fs name) (idx + 1) vUndef).length := by
                  rw [padTo_length]; omega
                simp only [getGo, isContainer, if_true]
                rw [getStep_setField_array cs fs name k idx _ hm]
                rw [getD_set_self _ _ _ _ hlen]
          | none =>
              refine ⟨setField fs (resolveKey cs fs k) v, ?_, ?_⟩
              · show setKeysLast cs v (vObj fs) k = _
                unfold setKeysLast
                rw [hm]
              · simp only [getGo, isContainer, if_true]
                rw [getStep_setField_resolved cs fs k v hm]
      | cons k2 rest =>
          have hobj : isObjV t = true := descentOk_isObj cs t _ (by simp) hok
          obtain ⟨fs, rfl⟩ := isObjV_exists t hobj
          have hok2 : descentOkMidWith cs (vObj fs) k
              (fun child => descentOk cs child (k2 :: rest)) = true := hok
          unfold descentOkMidWith at hok2
          cases hm : findArrayMatch k with
          | some nameIdx =>
              obtain ⟨name, idx⟩ := nameIdx
              rw [hm] at hok2
              simp only [Bool.and_eq_true] at hok2
              obtain ⟨hchild, hrec⟩ := hok2
              obtain ⟨fs', hset, hget⟩ :=
                ih ((padTo (arrAt fs name) (idx + 1) (vObj [])).getD idx vUndef)
                  (by simp) hrec
              have hlen : idx <
                  (padTo (arrAt fs name) (idx + 1) (vObj [])).length := by
                rw [padTo_length]; omega
              refine ⟨setField fs name
                (vArr ((padTo (arrAt fs name) (idx + 1) (vObj [])).set idx
                  (vObj fs'))), ?_, ?_⟩
              · show setKeysMidWith cs (vObj fs) k
                  (fun child => setKeys cs v child (k2 :: rest)) = _
                unfold setKeysMidWith
                rw [hm]
                simp only [hset]
              · simp only [getGo, isContainer, if_true]
                rw [getStep_setField_array cs fs name k idx _ hm]
                rw [getD_set_self _ _ _ _ hlen]
                exact hget
          | none =>
              rw [hm] at hok2
              simp only [Bool.and_eq_true] at hok2
              obtain ⟨hchild, hrec⟩ := hok2
              obtain ⟨fs', hset, hget⟩ :=
                ih (clobberChild fs (resolveKey cs fs k)) (by simp) hrec
              refine ⟨setField fs (resolveKey cs fs k) (vObj fs'), ?_, ?_⟩
              · show setKeysMidWith cs (vObj fs) k
                  (fun child => setKeys cs v child (k2 :: rest)) = _
                unfold setKeysMidWith
                rw [hm]
                simp only [hset]
              · simp only [getGo, isContainer, if_true]
                rw [getStep_setField_resolved cs fs k (vObj fs') hm]
                exact hget

/-- C8, counterexample: on the tree `{items: [5]}` with the valid sub-path
`items[0].x`, `setAt` throws a `TypeError`: the primitive `5` sitting in
the array slot is descended into without being clobbered (the array branch
never replaces an existing element), and the final assignment
`current["x"] = v` on the number `5` throws, since `class` bodies are
strict mode. No intermediate was clobbered — the walk aborts before any
write — so there is no result tree at all and the round-trip equation
fails outside the claim's clobber exception (`none` models the thrown
`TypeError`; `getAt` on the untouched tree gives `undefined`, not the
written value). -/
theorem claimC8_cex :
    setValueByPath true (vObj [("items", vArr [vNum 5])]) "items[0].x"
      (vNum 1) = none
    ∧ getValueByPath true (vObj [("items", vArr [vNum 5])]) "items[0].x" =
        vUndef
    ∧ vUndef ≠ vNum 1 :=
  ⟨rfl, rfl, fun h => Value.noConfusion h⟩

/-- C8 (corrected): `getAt(setAt(tree, p, v), p) = v` holds for every
nonempty sub-path whose `setAt` descent meets only matching containers
(existing object children, freshly clobbered or padded `{}` slots) — which
includes every documented clobber of a type-conflicting *object* child —
but the exception must also cover non-container intermediates reached
through existing array elements: the array branch descends into the
element without clobbering it, and the subsequent property assignment or
access on the primitive throws a `TypeError` (strict mode), so `setAt`
produces no result tree and the round trip fails outside the original
clobber exception. -/
theorem claimC8 (cs : Bool) (t v : Value) (p : String)
    (hp : p ≠ "") (hok : descentOk cs t (splitDots p) = true) :
    ∃ t', setValueByPath cs t p v = some t' ∧ getValueByPath cs t' p = v := by
  have hks : splitDots p ≠ [] := splitDotsAux_ne_nil p.toList []
  have hobj : isObjV t = true := descentOk_isObj cs t _ hks hok
  obtain ⟨fs, rfl⟩ := isObjV_exists t hobj
  obtain ⟨fs', hset, hget⟩ := setKeys_roundtrip cs v (splitDots p) (vObj fs)
    hks hok
  refine ⟨vObj fs', ?_, ?_⟩
  · unfold setValueByPath
    rw [if_neg hp, if_neg (by simp [falsy])]
    exact hset
  · unfold getValueByPath
    rw [if_neg (by simp [falsy, hp])]
    exact hget

/-- C8, witness: writing through a fresh padded array slot,
`setAt({}, "items[1].x", 1)` succeeds and reads back `1`. -/
theorem claimC8_wit :
    ∃ t', setValueByPath true (vObj []) "items[1].x" (vNum 1) = some t'
      ∧ getValueByPath true t' "items[1].x" = vNum 1 :=
  claimC8 true (vObj []) (vNum 1) "items[1].x" (by decide) rfl

end FastLS
